import Mathlib

/-!
Shallow embedding of `src/tarefa3-todo-manager/todoManager.js`: the
TodoManager CRUD store, its Jira-style code generator and the project-key
validator, together with proofs of the specified properties.

JavaScript runtime values that can reach the API are modelled by `JsVal`
(`undefined`, `null`, booleans, numbers as rationals, strings).  The
mutable `TodoManager` object is modelled by the `Manager` record, every
mutating method becomes a function `Manager → args → result × Manager`,
and thrown `InvalidInputError` / `NotFoundError` exceptions become the
`Err` sum carried in an `Except`.  `new Date()` timestamps are modelled
by an explicit `now : Nat` argument to each mutating call.  In-place
mutation of a task object found by `Array.prototype.find` is modelled by
replacing the first list entry with the matching `id`, including the
mutations that have already happened when a later validation throws.
`String.prototype.trim`, `toUpperCase`, `toLowerCase` and `includes` are
modelled character-exactly on the ASCII range exercised by the program.
-/

namespace TodoMgr

/-- JavaScript values, as far as the to-do manager API inspects them. -/
inductive JsVal where
  | undefined : JsVal
  | null : JsVal
  | bool : Bool → JsVal
  | num : Rat → JsVal
  | str : String → JsVal
deriving DecidableEq, Repr

/-- `typeof v === 'number'`. -/
def JsVal.isNum : JsVal → Bool
  | .num _ => true
  | _ => false

/-- `typeof v === 'string'`. -/
def JsVal.isStr : JsVal → Bool
  | .str _ => true
  | _ => false

/-- `v != null`, the loose test that is false exactly on `undefined` and `null`. -/
def JsVal.notNullish : JsVal → Bool
  | .undefined => false
  | .null => false
  | _ => true

/-- The nullish-coalescing operator `v ?? d`. -/
def jsNullish (v d : JsVal) : JsVal :=
  if v.notNullish then v else d

/-- Code points removed by `String.prototype.trim` (the JS whitespace set). -/
def jsWhitespace (c : Char) : Bool :=
  c.toNat = 9 || c.toNat = 10 || c.toNat = 11 || c.toNat = 12 || c.toNat = 13 ||
  c.toNat = 32 || c.toNat = 160 || c.toNat = 0x2028 || c.toNat = 0x2029 || c.toNat = 0xFEFF

/-- `String.prototype.trim` on the underlying character list. -/
def jsTrimList (l : List Char) : List Char :=
  (l.dropWhile jsWhitespace).rdropWhile jsWhitespace

/-- `s.trim()`. -/
def jsTrim (s : String) : String :=
  ⟨jsTrimList s.data⟩

/-- `String.prototype.toUpperCase` on one character (ASCII range). -/
def jsUpperChar (c : Char) : Char :=
  if 97 ≤ c.toNat && c.toNat ≤ 122 then Char.ofNat (c.toNat - 32) else c

/-- `String.prototype.toLowerCase` on one character (ASCII range). -/
def jsLowerChar (c : Char) : Char :=
  if 65 ≤ c.toNat && c.toNat ≤ 90 then Char.ofNat (c.toNat + 32) else c

/-- `s.toUpperCase()`. -/
def jsToUpper (s : String) : String :=
  ⟨s.data.map jsUpperChar⟩

/-- `s.toLowerCase()`. -/
def jsToLower (s : String) : String :=
  ⟨s.data.map jsLowerChar⟩

/-- A character matching the regex class `[A-Z]`. -/
def upperAlpha (c : Char) : Bool :=
  65 ≤ c.toNat && c.toNat ≤ 90

/-- A character matching the regex class `[A-Z0-9]`. -/
def keyTailChar (c : Char) : Bool :=
  upperAlpha c || (48 ≤ c.toNat && c.toNat ≤ 57)

/-- The test `/^[A-Z][A-Z0-9]{1,9}$/.test(s)`. -/
def keyMatches (s : String) : Bool :=
  match s.data with
  | [] => false
  | c :: rest =>
    upperAlpha c && rest.all keyTailChar && decide (1 ≤ rest.length) && decide (rest.length ≤ 9)

/-- Error kinds of the manager: `InvalidInputError` and `NotFoundError`. -/
inductive Err where
  | invalidInput : Err
  | notFound : Err
deriving DecidableEq, Repr

/-- The function `validateProjectKey`: requires a string, normalizes by
`trim().toUpperCase()`, then requires the `^[A-Z][A-Z0-9]{1,9}$` shape. -/
def validateProjectKey (v : JsVal) : Except Err String :=
  match v with
  | .str s =>
    let norm := jsToUpper (jsTrim s)
    if keyMatches norm then .ok norm else .error .invalidInput
  | _ => .error .invalidInput

/-- Lookup in the `CodeGenerator` counters map, `this.counters.get(key) ?? 0`. -/
def mapGet (g : List (String × Nat)) (k : String) : Nat :=
  match g.find? (fun p => decide (p.1 = k)) with
  | some p => p.2
  | none => 0

/-- `Map.prototype.set`: overwrite an existing entry in place, else append. -/
def mapSet : List (String × Nat) → String → Nat → List (String × Nat)
  | [], k, v => [(k, v)]
  | p :: ps, k, v => if p.1 = k then (k, v) :: ps else p :: mapSet ps k v

/-- `CodeGenerator.next`: validate the key, bump its counter, return the code
`` `${key}-${next}` `` together with the updated counters map. -/
def cgNext (g : List (String × Nat)) (projectKey : JsVal) :
    Except Err (String × List (String × Nat)) :=
  match validateProjectKey projectKey with
  | .error e => .error e
  | .ok key =>
    let current := mapGet g key
    let nxt := current + 1
    .ok (key ++ "-" ++ toString nxt, mapSet g key nxt)

/-- `CodeGenerator.peek`: validate the key and read its counter without mutating. -/
def cgPeek (g : List (String × Nat)) (projectKey : JsVal) : Except Err Nat :=
  match validateProjectKey projectKey with
  | .error e => .error e
  | .ok key => .ok (mapGet g key)

/-- One stored task.  `description` stays a raw `JsVal` because `createTask`
copies `input.description ?? ''` into the record without a type check. -/
structure Task where
  id : Nat
  code : String
  title : String
  description : JsVal
  status : String
  priority : String
  createdAt : Nat
  updatedAt : Nat
  completedAt : Option Nat
deriving DecidableEq, Repr

/-- The array `Object.values(STATUSES)` backing the `VALID_STATUS` set. -/
def VALID_STATUS : List String := ["todo", "in_progress", "done"]

/-- The array `Object.values(PRIORITIES)` backing the `VALID_PRIORITY` set. -/
def VALID_PRIORITY : List String := ["low", "medium", "high"]

/-- Membership test of a runtime value in the `VALID_PRIORITY` set of strings. -/
def validPriorityVal (v : JsVal) : Bool :=
  match v with
  | .str s => VALID_PRIORITY.contains s
  | _ => false

/-- The `changes` record handed to `applyChanges`; an absent property is
`undefined`. -/
structure Changes where
  title : JsVal
  description : JsVal
  priority : JsVal
  status : JsVal
deriving DecidableEq, Repr

/-- The `changes.title` block of `applyChanges`. -/
def applyTitle (t : Task) (v : JsVal) : Except Err Task :=
  if v.notNullish then
    match v with
    | .str s => if jsTrim s = "" then .error .invalidInput else .ok { t with title := jsTrim s }
    | _ => .error .invalidInput
  else .ok t

/-- The `changes.description` block of `applyChanges`. -/
def applyDescription (t : Task) (v : JsVal) : Except Err Task :=
  if v.notNullish then
    match v with
    | .str _ => .ok { t with description := v }
    | _ => .error .invalidInput
  else .ok t

/-- The `changes.priority` block of `applyChanges`. -/
def applyPriority (t : Task) (v : JsVal) : Except Err Task :=
  if v.notNullish then
    match v with
    | .str s =>
      if VALID_PRIORITY.contains s then .ok { t with priority := s } else .error .invalidInput
    | _ => .error .invalidInput
  else .ok t

/-- The `changes.status` block of `applyChanges`: a valid new status is stored
and `completedAt` becomes `now` exactly when the new status is `done`. -/
def applyStatus (t : Task) (v : JsVal) (now : Nat) : Except Err Task :=
  if v.notNullish then
    match v with
    | .str s =>
      if VALID_STATUS.contains s then
        .ok { t with status := s, completedAt := if s = "done" then some now else none }
      else .error .invalidInput
    | _ => .error .invalidInput
  else .ok t

/-- The function `applyChanges`, which mutates the task field by field and can
throw in the middle: the returned task reflects every write performed before
the error, and `updatedAt` is stamped only when no block throws. -/
def applyChanges (t : Task) (c : Changes) (now : Nat) : Task × Option Err :=
  match applyTitle t c.title with
  | .error e => (t, some e)
  | .ok t1 =>
    match applyDescription t1 c.description with
    | .error e => (t1, some e)
    | .ok t2 =>
      match applyPriority t2 c.priority with
      | .error e => (t2, some e)
      | .ok t3 =>
        match applyStatus t3 c.status now with
        | .error e => (t3, some e)
        | .ok t4 => ({ t4 with updatedAt := now }, none)

/-- The JS substring test `h.includes(n)` on character lists. -/
def strIncludes (n : List Char) : List Char → Bool
  | [] => n.isEmpty
  | c :: t => n.isPrefixOf (c :: t) || strIncludes n t

/-- The helper `includesCI(haystack, needle)`:
`haystack.toLowerCase().includes(needle.toLowerCase())`. -/
def includesCI (haystack needle : String) : Bool :=
  strIncludes (jsToLower needle).data (jsToLower haystack).data

/-- State of one `TodoManager`: the task array, the `_nextId` counter and the
`CodeGenerator` counters map. -/
structure Manager where
  tasks : List Task
  nextId : Nat
  codes : List (String × Nat)
deriving DecidableEq, Repr

/-- The state built by `new TodoManager()`. -/
def Manager.init : Manager :=
  { tasks := [], nextId := 1, codes := [] }

/-- Payload of `createTask`; an absent property is `undefined`. -/
structure CreateInput where
  title : JsVal
  description : JsVal
  priority : JsVal
  projectKey : JsVal
deriving DecidableEq, Repr

/-- The expression `typeof input.title === 'string' ? input.title.trim() : ''`. -/
def createTitle (input : CreateInput) : String :=
  match input.title with
  | .str s => jsTrim s
  | _ => ""

/-- The string payload of a value that passed the `VALID_PRIORITY.has` test. -/
def priorityStr (v : JsVal) : String :=
  match v with
  | .str s => s
  | _ => ""

/-- `TodoManager.createTask`.  Validation order follows the source: trimmed
title, priority, project key; `_nextId++` happens while the `Task` literal is
being built, before `this._codes.next(projectKey)` runs. -/
def createTask (m : Manager) (input : CreateInput) (now : Nat) :
    Except Err Task × Manager :=
  let title := createTitle input
  if title = "" then (.error .invalidInput, m)
  else
    let description := jsNullish input.description (.str "")
    let priority := jsNullish input.priority (.str "medium")
    if !validPriorityVal priority then (.error .invalidInput, m)
    else
      match validateProjectKey (jsNullish input.projectKey (.str "TASK")) with
      | .error e => (.error e, m)
      | .ok projectKey =>
        let id := m.nextId
        let m1 := { m with nextId := m.nextId + 1 }
        match cgNext m1.codes (.str projectKey) with
        | .error e => (.error e, m1)
        | .ok (code, codes1) =>
          let task : Task :=
            { id := id, code := code, title := title, description := description
              status := "todo", priority := priorityStr priority
              createdAt := now, updatedAt := now, completedAt := none }
          (.ok task, { m1 with codes := codes1, tasks := m1.tasks ++ [task] })

/-- `TodoManager.listTasks`: returns `[...this._tasks]` and leaves the store
untouched. -/
def listTasks (m : Manager) : List Task × Manager :=
  (m.tasks, m)

/-- The predicate `t.id === id` for a JS number argument `q`. -/
def taskIdMatches (q : Rat) (t : Task) : Bool :=
  decide ((t.id : Rat) = q)

/-- `TodoManager.getTask`: rejects non-number arguments, then returns the first
task with the given id or `NotFoundError`. -/
def getTask (m : Manager) (idv : JsVal) : Except Err Task :=
  match idv with
  | .num q =>
    match m.tasks.find? (taskIdMatches q) with
    | some t => .ok t
    | none => .error .notFound
  | _ => .error .invalidInput

/-- In-place mutation of the task object `find` returned: the first entry
satisfying the predicate is replaced. -/
def replaceFirst (p : Task → Bool) (nt : Task) : List Task → List Task
  | [] => []
  | t :: ts => if p t then nt :: ts else t :: replaceFirst p nt ts

/-- The `changes` argument of `updateTask` as a runtime value: either an
object carrying the three recognized properties or a non-object value
(`null` counts as rejected because of the `!changes` test). -/
inductive ChangesArg where
  | obj : JsVal → JsVal → JsVal → ChangesArg
  | nonObj : JsVal → ChangesArg
deriving DecidableEq, Repr

/-- `TodoManager.updateTask`: look the task up first, reject a non-object
`changes`, then run `applyChanges` on `{title, description, priority}` —
writing back whatever fields were mutated even when a later field throws. -/
def updateTask (m : Manager) (idv : JsVal) (changes : ChangesArg) (now : Nat) :
    Except Err Task × Manager :=
  match getTask m idv with
  | .error e => (.error e, m)
  | .ok task =>
    match changes with
    | .nonObj _ => (.error .invalidInput, m)
    | .obj ti de pr =>
      let r := applyChanges task { title := ti, description := de, priority := pr, status := .undefined } now
      let m1 := { m with tasks := replaceFirst (fun u => u.id == task.id) r.1 m.tasks }
      match r.2 with
      | some e => (.error e, m1)
      | none => (.ok r.1, m1)

/-- `TodoManager.changeStatus`: look the task up, then run `applyChanges` on
`{status: newStatus}`. -/
def changeStatus (m : Manager) (idv : JsVal) (newStatus : JsVal) (now : Nat) :
    Except Err Task × Manager :=
  match getTask m idv with
  | .error e => (.error e, m)
  | .ok task =>
    let r := applyChanges task { title := .undefined, description := .undefined, priority := .undefined, status := newStatus } now
    let m1 := { m with tasks := replaceFirst (fun u => u.id == task.id) r.1 m.tasks }
    match r.2 with
    | some e => (.error e, m1)
    | none => (.ok r.1, m1)

/-- `TodoManager.removeTask`: rejects non-number arguments, then splices out
the first task with the given id or throws `NotFoundError`. -/
def removeTask (m : Manager) (idv : JsVal) : Except Err Unit × Manager :=
  match idv with
  | .num q =>
    if (m.tasks.find? (taskIdMatches q)).isSome then
      (.ok (), { m with tasks := m.tasks.eraseP (taskIdMatches q) })
    else (.error .notFound, m)
  | _ => (.error .invalidInput, m)

/-- `TodoManager.searchByTitle`: requires a string query that is non-empty
after trimming, then filters by `includesCI(t.title, query.trim())`. -/
def searchByTitle (m : Manager) (query : JsVal) : Except Err (List Task) :=
  match query with
  | .str s =>
    if jsTrim s = "" then .error .invalidInput
    else .ok (m.tasks.filter (fun t => includesCI t.title (jsTrim s)))
  | _ => .error .invalidInput

/-- Success test of `createTask`; it reads nothing but the payload, so a
creation succeeds or fails independently of the store state. -/
def validCreate (input : CreateInput) : Bool :=
  decide (createTitle input ≠ "") &&
  validPriorityVal (jsNullish input.priority (.str "medium")) &&
  (match validateProjectKey (jsNullish input.projectKey (.str "TASK")) with
   | .ok _ => true
   | .error _ => false)

/-- One call of the mutating id-consuming API: `createTask` or `removeTask`. -/
inductive Op where
  | create : CreateInput → Nat → Op
  | remove : JsVal → Op
deriving Repr

/-- Run one operation; the second component is the id of the task a
successful `createTask` returned. -/
def runOp (m : Manager) : Op → Manager × Option Nat
  | .create input now =>
    let r := createTask m input now
    (r.2, match r.1 with | .ok t => some t.id | .error _ => none)
  | .remove idv => ((removeTask m idv).2, none)

/-- Run a call sequence, collecting the ids returned by successful creations. -/
def runOps : Manager → List Op → Manager × List Nat
  | m, [] => (m, [])
  | m, op :: ops =>
    let r1 := runOp m op
    let r2 := runOps r1.1 ops
    (r2.1, match r1.2 with | some i => i :: r2.2 | none => r2.2)

/-- Number of successful creations in a call sequence. -/
def validCount : List Op → Nat
  | [] => 0
  | .create input _ :: ops => (if validCreate input then 1 else 0) + validCount ops
  | .remove _ :: ops => validCount ops

/-- Iterate `CodeGenerator.next` on one key, collecting the issued codes. -/
def cgNextCalls (g : List (String × Nat)) (key : JsVal) : Nat → List String × List (String × Nat)
  | 0 => ([], g)
  | k + 1 =>
    match cgNext g key with
    | .ok r =>
      let rest := cgNextCalls r.2 key k
      (r.1 :: rest.1, rest.2)
    | .error _ => ([], g)

/-- Coupling invariant of the spec: a stored task has a completion timestamp
exactly when its current status is `done`. -/
def StatusInv (m : Manager) : Prop :=
  ∀ t ∈ m.tasks, (t.completedAt ≠ none ↔ t.status = "done")

/-- A well-formed code: `<KEY>-<N>` for a string matching the project-key
pattern. -/
def codeWF (s : String) : Prop :=
  ∃ (K : String) (n : Nat), keyMatches K = true ∧ s = K ++ "-" ++ toString n

/-- Well-formedness of one stored task: non-empty trimmed title, status and
priority inside their enumerations, Jira-shaped code. -/
def TaskWF (t : Task) : Prop :=
  t.title ≠ "" ∧ jsTrim t.title = t.title ∧
  t.status ∈ VALID_STATUS ∧ t.priority ∈ VALID_PRIORITY ∧ codeWF t.code

/-- Well-formedness of the whole store. -/
def WF (m : Manager) : Prop :=
  ∀ t ∈ m.tasks, TaskWF t

/-- One mutating call on the store (the read-only operations `listTasks`,
`getTask`, `searchByTitle`, … take the state to itself and need no step). -/
inductive Step : Manager → Manager → Prop where
  | create : ∀ m input now, Step m (createTask m input now).2
  | update : ∀ m idv changes now, Step m (updateTask m idv changes now).2
  | status : ∀ m idv ns now, Step m (changeStatus m idv ns now).2
  | remove : ∀ m idv, Step m (removeTask m idv).2

instance exceptDecidableEq {e a : Type} [DecidableEq e] [DecidableEq a] :
    DecidableEq (Except e a) := fun x y =>
  match x, y with
  | .ok u, .ok w =>
    if h : u = w then isTrue (by rw [h])
    else isFalse (by intro hh; cases hh; exact h rfl)
  | .error u, .error w =>
    if h : u = w then isTrue (by rw [h])
    else isFalse (by intro hh; cases hh; exact h rfl)
  | .ok _, .error _ => isFalse (by intro hh; cases hh)
  | .error _, .ok _ => isFalse (by intro hh; cases hh)

instance statusInvDecidable (m : Manager) : Decidable (StatusInv m) := by
  unfold StatusInv
  exact inferInstance

/-- States a `TodoManager` can reach from `new TodoManager()`. -/
def Reachable (m : Manager) : Prop :=
  Relation.ReflTransGen Step Manager.init m

/-- Demo payload used by the concrete counterexamples and witnesses. -/
def demoInput : CreateInput :=
  { title := .str "Old", description := .undefined, priority := .undefined,
    projectKey := .undefined }

/-- The task record `createTask` builds from `demoInput` at time 0. -/
def demoTask : Task :=
  { id := 1, code := "TASK-1", title := "Old", description := .str "",
    status := "todo", priority := "medium", createdAt := 0, updatedAt := 0,
    completedAt := none }

/-- Store holding the single task created from `demoInput`. -/
def demoM : Manager :=
  (createTask Manager.init demoInput 0).2

/-- Store holding one task titled `"xax"`. -/
def storeXax : Manager :=
  (createTask Manager.init
    { title := .str "xax", description := .undefined, priority := .undefined,
      projectKey := .undefined } 0).2

/-- Store holding one task titled `"Implementar LOGIN"`. -/
def storeLogin : Manager :=
  (createTask Manager.init
    { title := .str "Implementar LOGIN", description := .undefined,
      priority := .undefined, projectKey := .str "PROJ" } 0).2

/-- Demo call sequence: create, remove the first task, create again. -/
def demoOps : List Op :=
  [.create demoInput 0, .remove (.num (Rat.mk' 1 1)), .create demoInput 3]

/-- Payload whose `description` is the number 42. -/
def descInput : CreateInput :=
  { title := .str "x", description := .num (Rat.mk' 42 1), priority := .undefined,
    projectKey := .undefined }

/-! Helper lemmas about the string primitives. -/

theorem dropWhile_all_neg {α : Type} {p : α → Bool} {l : List α}
    (h : ∀ c ∈ l, p c = false) : l.dropWhile p = l := by
  cases l with
  | nil => rfl
  | cons a t =>
    have ha : p a = false := h a (List.mem_cons_self a t)
    rw [List.dropWhile_cons, if_neg (by simp [ha])]

theorem rdropWhile_all_neg {α : Type} {p : α → Bool} {l : List α}
    (h : ∀ c ∈ l, p c = false) : l.rdropWhile p = l := by
  rw [List.rdropWhile, dropWhile_all_neg, List.reverse_reverse]
  intro c hc
  exact h c (List.mem_reverse.mp hc)

theorem keyTailChar_not_ws {c : Char} (h : keyTailChar c = true) :
    jsWhitespace c = false := by
  simp only [keyTailChar, upperAlpha, Bool.or_eq_true, Bool.and_eq_true,
    decide_eq_true_eq] at h
  apply Bool.eq_false_iff.mpr
  intro hw
  simp only [jsWhitespace, Bool.or_eq_true, decide_eq_true_eq] at hw
  omega

theorem keyTailChar_upper {c : Char} (h : keyTailChar c = true) :
    jsUpperChar c = c := by
  simp only [keyTailChar, upperAlpha, Bool.or_eq_true, Bool.and_eq_true,
    decide_eq_true_eq] at h
  have hn : ¬ ((97 ≤ c.toNat && c.toNat ≤ 122) = true) := by
    simp only [Bool.and_eq_true, decide_eq_true_eq, not_and]
    omega
  rw [jsUpperChar, if_neg hn]

theorem keyTailChar_ne_dash {c : Char} (h : keyTailChar c = true) : c ≠ '-' := by
  intro hc
  subst hc
  exact absurd h (by decide)

theorem keyMatches_chars {s : String} (h : keyMatches s = true) :
    ∀ c ∈ s.data, keyTailChar c = true := by
  unfold keyMatches at h
  intro c hc
  match hd : s.data with
  | [] => rw [hd] at hc; cases hc
  | a :: rest =>
    rw [hd] at h hc
    simp only [Bool.and_eq_true, List.all_eq_true] at h
    rcases List.mem_cons.mp hc with rfl | hmem
    · simp only [keyTailChar, Bool.or_eq_true]
      exact Or.inl h.1.1.1
    · exact h.1.1.2 c hmem

theorem keyMatches_trim {s : String} (h : keyMatches s = true) : jsTrim s = s := by
  have hall : ∀ c ∈ s.data, jsWhitespace c = false :=
    fun c hc => keyTailChar_not_ws (keyMatches_chars h c hc)
  apply String.ext
  show jsTrimList s.data = s.data
  unfold jsTrimList
  rw [dropWhile_all_neg hall, rdropWhile_all_neg hall]

theorem keyMatches_toUpper {s : String} (h : keyMatches s = true) :
    jsToUpper s = s := by
  apply String.ext
  show s.data.map jsUpperChar = s.data
  have : s.data.map jsUpperChar = s.data.map id := by
    apply List.map_congr_left
    intro c hc
    exact keyTailChar_upper (keyMatches_chars h c hc)
  rw [this, List.map_id]

theorem validateProjectKey_of_matches {K : String} (h : keyMatches K = true) :
    validateProjectKey (.str K) = .ok K := by
  show (if keyMatches (jsToUpper (jsTrim K)) = true then Except.ok (jsToUpper (jsTrim K))
        else Except.error Err.invalidInput) = Except.ok K
  rw [keyMatches_trim h, keyMatches_toUpper h, if_pos h]

theorem validateProjectKey_matches {v : JsVal} {K : String}
    (h : validateProjectKey v = .ok K) : keyMatches K = true := by
  unfold validateProjectKey at h
  match v with
  | .str s =>
    simp only at h
    split at h
    · cases h; assumption
    · cases h
  | .undefined | .null | .bool _ | .num _ => cases h

theorem validateProjectKey_norm {v : JsVal} {K : String}
    (h : validateProjectKey v = .ok K) : validateProjectKey (.str K) = .ok K :=
  validateProjectKey_of_matches (validateProjectKey_matches h)

theorem validateProjectKey_err {v : JsVal} {e : Err}
    (h : validateProjectKey v = .error e) : e = .invalidInput := by
  unfold validateProjectKey at h
  match v with
  | .str s =>
    simp only at h
    split at h
    · cases h
    · cases h; rfl
  | .undefined => cases h; rfl
  | .null => cases h; rfl
  | .bool _ => cases h; rfl
  | .num _ => cases h; rfl

/-! Helper lemmas about the counters map. -/

theorem mapGet_cons (p : String × Nat) (ps : List (String × Nat)) (k : String) :
    mapGet (p :: ps) k = if p.1 = k then p.2 else mapGet ps k := by
  by_cases hp : p.1 = k
  · simp [mapGet, List.find?, hp]
  · simp [mapGet, List.find?, hp]

theorem mapGet_set_self (g : List (String × Nat)) (k : String) (v : Nat) :
    mapGet (mapSet g k v) k = v := by
  induction g with
  | nil => simp [mapSet, mapGet_cons]
  | cons p ps ih =>
    show mapGet (if p.1 = k then (k, v) :: ps else p :: mapSet ps k v) k = v
    by_cases hp : p.1 = k
    · rw [if_pos hp, mapGet_cons, if_pos rfl]
    · rw [if_neg hp, mapGet_cons, if_neg hp, ih]

theorem mapGet_set_other (g : List (String × Nat)) (k k2 : String) (v : Nat)
    (h : k2 ≠ k) : mapGet (mapSet g k v) k2 = mapGet g k2 := by
  have hk : k ≠ k2 := fun hh => h hh.symm
  induction g with
  | nil =>
    show mapGet [(k, v)] k2 = mapGet [] k2
    rw [mapGet_cons, if_neg hk]
  | cons p ps ih =>
    show mapGet (if p.1 = k then (k, v) :: ps else p :: mapSet ps k v) k2 = mapGet (p :: ps) k2
    by_cases hp : p.1 = k
    · rw [if_pos hp, mapGet_cons, if_neg hk, mapGet_cons, hp, if_neg hk]
    · rw [if_neg hp, mapGet_cons, mapGet_cons, ih]

theorem cgNext_ok {v : JsVal} {K : String} (g : List (String × Nat))
    (h : validateProjectKey v = .ok K) :
    cgNext g v = .ok (K ++ "-" ++ toString (mapGet g K + 1), mapSet g K (mapGet g K + 1)) := by
  unfold cgNext
  rw [h]

/-! Helper lemmas about `createTask` and the store operations. -/

theorem validPriorityVal_mem {v : JsVal} (h : validPriorityVal v = true) :
    priorityStr v ∈ VALID_PRIORITY := by
  match v with
  | .str s =>
    simp only [validPriorityVal] at h
    exact List.mem_of_elem_eq_true h
  | .undefined | .null | .bool _ | .num _ => simp [validPriorityVal] at h

theorem createTask_ok_shape {m : Manager} {input : CreateInput} {now : Nat}
    {t : Task} {m2 : Manager} (h : createTask m input now = (.ok t, m2)) :
    validCreate input = true ∧
    t.id = m.nextId ∧ t.status = "todo" ∧ t.completedAt = none ∧
    t.title = createTitle input ∧ t.createdAt = now ∧ t.updatedAt = now ∧
    t.priority ∈ VALID_PRIORITY ∧
    m2.nextId = m.nextId + 1 ∧ m2.tasks = m.tasks ++ [t] ∧
    (∃ K, keyMatches K = true ∧
      t.code = K ++ "-" ++ toString (mapGet m.codes K + 1) ∧
      m2.codes = mapSet m.codes K (mapGet m.codes K + 1)) := by
  simp only [createTask] at h
  by_cases hTitle : createTitle input = ""
  · rw [if_pos hTitle] at h; cases h
  rw [if_neg hTitle] at h
  by_cases hPrio : validPriorityVal (jsNullish input.priority (.str "medium")) = true
  case neg =>
    rw [if_pos (by simp [Bool.eq_false_iff.mpr hPrio])] at h
    cases h
  rw [if_neg (by simp [hPrio])] at h
  cases hKey : validateProjectKey (jsNullish input.projectKey (.str "TASK")) with
  | error e2 => simp only [hKey] at h; cases h
  | ok K =>
    simp only [hKey, cgNext_ok m.codes (validateProjectKey_norm hKey)] at h
    simp only [Prod.mk.injEq, Except.ok.injEq] at h
    obtain ⟨rfl, rfl⟩ := h
    refine ⟨?_, rfl, rfl, rfl, rfl, rfl, rfl, validPriorityVal_mem hPrio, rfl, rfl,
      ⟨K, validateProjectKey_matches hKey, rfl, rfl⟩⟩
    simp [validCreate, hKey, hPrio, hTitle]

theorem createTask_err_state {m : Manager} {input : CreateInput} {now : Nat}
    {e : Err} {m2 : Manager} (h : createTask m input now = (.error e, m2)) :
    m2 = m ∧ e = .invalidInput := by
  simp only [createTask] at h
  by_cases hTitle : createTitle input = ""
  · rw [if_pos hTitle] at h; cases h; exact ⟨rfl, rfl⟩
  rw [if_neg hTitle] at h
  by_cases hPrio : validPriorityVal (jsNullish input.priority (.str "medium")) = true
  case neg =>
    rw [if_pos (by simp [Bool.eq_false_iff.mpr hPrio])] at h
    cases h; exact ⟨rfl, rfl⟩
  rw [if_neg (by simp [hPrio])] at h
  cases hKey : validateProjectKey (jsNullish input.projectKey (.str "TASK")) with
  | error e2 =>
    simp only [hKey] at h
    cases h
    exact ⟨rfl, validateProjectKey_err hKey⟩
  | ok K =>
    simp only [hKey, cgNext_ok m.codes (validateProjectKey_norm hKey)] at h
    cases h

theorem createTask_of_validCreate {input : CreateInput} (m : Manager) (now : Nat)
    (h : validCreate input = true) :
    ∃ t m2, createTask m input now = (.ok t, m2) := by
  simp only [validCreate, Bool.and_eq_true, decide_eq_true_eq] at h
  obtain ⟨⟨hTitle, hPrio⟩, hKey⟩ := h
  obtain ⟨K, hK⟩ : ∃ K, validateProjectKey (jsNullish input.projectKey (.str "TASK")) = .ok K := by
    revert hKey
    cases hv : validateProjectKey (jsNullish input.projectKey (.str "TASK"))
    · simp
    · exact fun _ => ⟨_, rfl⟩
  simp only [createTask]
  rw [if_neg hTitle, if_neg (by simp [hPrio])]
  simp only [hK, cgNext_ok m.codes (validateProjectKey_norm hK)]
  exact ⟨_, _, rfl⟩

theorem createTask_result (m : Manager) (input : CreateInput) (now : Nat) :
    (validCreate input = true ∧ ∃ t m2, createTask m input now = (.ok t, m2)) ∨
    (validCreate input = false ∧ createTask m input now = (.error .invalidInput, m)) := by
  cases hv : validCreate input
  · rcases hr : createTask m input now with ⟨r, m2⟩
    cases r with
    | ok t =>
      have := (createTask_ok_shape hr).1
      rw [hv] at this
      cases this
    | error e =>
      obtain ⟨rfl, rfl⟩ := createTask_err_state hr
      exact Or.inr ⟨rfl, rfl⟩
  · exact Or.inl ⟨rfl, createTask_of_validCreate m now hv⟩

theorem mem_replaceFirst {p : Task → Bool} {nt u : Task} {l : List Task}
    (h : u ∈ replaceFirst p nt l) : u ∈ l ∨ u = nt := by
  induction l with
  | nil => cases h
  | cons t ts ih =>
    unfold replaceFirst at h
    by_cases hp : p t = true
    · rw [if_pos hp] at h
      rcases List.mem_cons.mp h with rfl | hm
      · exact Or.inr rfl
      · exact Or.inl (List.mem_cons_of_mem t hm)
    · rw [if_neg hp] at h
      rcases List.mem_cons.mp h with rfl | hm
      · exact Or.inl (List.mem_cons_self _ _)
      · rcases ih hm with hm2 | rfl
        · exact Or.inl (List.mem_cons_of_mem t hm2)
        · exact Or.inr rfl

theorem removeTask_nextId (m : Manager) (idv : JsVal) :
    (removeTask m idv).2.nextId = m.nextId := by
  unfold removeTask
  split
  · split <;> rfl
  · rfl

theorem getTask_ok_mem {m : Manager} {idv : JsVal} {t : Task}
    (h : getTask m idv = .ok t) : t ∈ m.tasks := by
  unfold getTask at h
  match idv with
  | .num q =>
    simp only at h
    cases hf : m.tasks.find? (taskIdMatches q) with
    | some u => rw [hf] at h; cases h; exact List.mem_of_find?_eq_some hf
    | none => rw [hf] at h; cases h
  | .undefined | .null | .bool _ | .str _ => cases h

theorem applyChanges_statusOnly (t : Task) (ns : JsVal) (now : Nat) :
    applyChanges t ⟨.undefined, .undefined, .undefined, ns⟩ now =
      (match applyStatus t ns now with
       | .error e => (t, some e)
       | .ok t4 => ({ t4 with updatedAt := now }, none)) := rfl

theorem applyStatus_str (t : Task) (s : String) (now : Nat) :
    applyStatus t (.str s) now =
      (if VALID_STATUS.contains s then
        .ok { t with status := s, completedAt := if s = "done" then some now else none }
      else .error .invalidInput) := rfl

theorem applyStatus_ok_coupling {t t4 : Task} {v : JsVal} {now : Nat}
    (h : applyStatus t v now = .ok t4) :
    t4 = t ∨ (t4.status = (match v with | .str s => s | _ => t4.status) ∧
      (t4.completedAt ≠ none ↔ t4.status = "done")) := by
  unfold applyStatus at h
  by_cases hn : v.notNullish = true
  · rw [if_pos hn] at h
    match v with
    | .str s =>
      simp only at h
      by_cases hs : VALID_STATUS.contains s = true
      · rw [if_pos hs] at h
        cases h
        right
        refine ⟨rfl, ?_⟩
        by_cases hd : s = "done" <;> simp [hd]
      · rw [if_neg hs] at h; cases h
    | .undefined => simp [JsVal.notNullish] at hn
    | .null => simp [JsVal.notNullish] at hn
    | .bool _ => simp only at h; cases h
    | .num _ => simp only at h; cases h
  · rw [if_neg hn] at h
    cases h
    exact Or.inl rfl

theorem changeStatus_eq (m : Manager) (idv ns : JsVal) (now : Nat) :
    changeStatus m idv ns now =
      match getTask m idv with
      | .error e => (.error e, m)
      | .ok task =>
        match applyStatus task ns now with
        | .error e =>
          (.error e, { m with tasks := replaceFirst (fun u => u.id == task.id) task m.tasks })
        | .ok t4 =>
          (.ok { t4 with updatedAt := now },
           { m with tasks := replaceFirst (fun u => u.id == task.id) { t4 with updatedAt := now } m.tasks }) := by
  unfold changeStatus
  cases hg : getTask m idv with
  | error e => rfl
  | ok task =>
    simp only [applyChanges_statusOnly]
    cases ha : applyStatus task ns now with
    | error e => rfl
    | ok t4 => rfl

/-! Claim theorems. -/

/-- C1: for every task in the store, `completedAt` is non-null if and only if
the task's current status is `done`.  `createTask` establishes the invariant
and returns a task with status `todo` and `completedAt` null; every
`changeStatus` call preserves the invariant, and a successful transition to
`todo` or `in_progress` clears `completedAt`. -/
theorem status_completedAt_coupling :
    (∀ m input now, StatusInv m → StatusInv (createTask m input now).2) ∧
    (∀ m input now t m2, createTask m input now = (.ok t, m2) →
      t.status = "todo" ∧ t.completedAt = none) ∧
    (∀ m idv ns now, StatusInv m → StatusInv (changeStatus m idv ns now).2) ∧
    (∀ m idv s now t, (changeStatus m idv (.str s) now).1 = .ok t →
      (s = "todo" ∨ s = "in_progress") → t.completedAt = none) := by
  refine ⟨?_, ?_, ?_, ?_⟩
  · intro m input now hm
    rcases hr : createTask m input now with ⟨r, m2⟩
    cases r with
    | ok t =>
      obtain ⟨-, -, hst, hca, -, -, -, -, -, htasks, -⟩ := createTask_ok_shape hr
      intro u hu
      rw [show (Except.ok t, m2).2 = m2 from rfl, htasks] at hu
      rcases List.mem_append.mp hu with h1 | h2
      · exact hm u h1
      · rw [List.mem_singleton.mp h2, hca, hst]
        simp
    | error e =>
      obtain ⟨rfl, -⟩ := createTask_err_state hr
      exact hm
  · intro m input now t m2 h
    obtain ⟨-, -, hst, hca, -⟩ := createTask_ok_shape h
    exact ⟨hst, hca⟩
  · intro m idv ns now hm
    rw [changeStatus_eq]
    cases hg : getTask m idv with
    | error e => exact hm
    | ok task =>
      have htask := getTask_ok_mem hg
      dsimp only
      cases ha : applyStatus task ns now with
      | error e =>
        intro u hu
        rcases mem_replaceFirst hu with h1 | rfl
        · exact hm u h1
        · exact hm _ htask
      | ok t4 =>
        intro u hu
        rcases mem_replaceFirst hu with h1 | rfl
        · exact hm u h1
        · rcases applyStatus_ok_coupling ha with rfl | ⟨-, hc⟩
          · simpa using hm _ htask
          · simpa using hc
  · intro m idv s now t h hs
    rw [changeStatus_eq] at h
    cases hg : getTask m idv with
    | error e => simp only [hg] at h; cases h
    | ok task =>
      simp only [hg] at h
      cases ha : applyStatus task (.str s) now with
      | error e => simp only [ha] at h; cases h
      | ok t4 =>
        simp only [ha] at h
        have ht : { t4 with updatedAt := now } = t := Except.ok.inj h
        subst ht
        rw [applyStatus_str] at ha
        by_cases hv : VALID_STATUS.contains s = true
        · rw [if_pos hv] at ha
          have ht4 := Except.ok.inj ha
          subst ht4
          rcases hs with rfl | rfl <;> simp
        · rw [if_neg hv] at ha; cases ha

/-- Witness for C1: the invariant instantiated on the concrete store holding
one task, through a creation and a status change. -/
theorem status_completedAt_coupling_witness :
    StatusInv (createTask Manager.init demoInput 0).2 ∧
    StatusInv (changeStatus demoM (.num (Rat.mk' 1 1)) (.str "done") 3).2 :=
  ⟨status_completedAt_coupling.1 Manager.init demoInput 0 (by decide),
   status_completedAt_coupling.2.2.1 demoM (.num (Rat.mk' 1 1)) (.str "done") 3 (by decide)⟩

theorem runOps_ids (ops : List Op) : ∀ m : Manager,
    (runOps m ops).2 = List.range' m.nextId (validCount ops) ∧
    (runOps m ops).1.nextId = m.nextId + validCount ops := by
  induction ops with
  | nil => intro m; exact ⟨rfl, by simp [runOps, validCount]⟩
  | cons op ops ih =>
    intro m
    cases op with
    | create input now =>
      rcases createTask_result m input now with ⟨hv, t, m2, hr⟩ | ⟨hv, hr⟩
      · obtain ⟨-, hid, -, -, -, -, -, -, hnext, -⟩ := createTask_ok_shape hr
        simp only [runOps, runOp, hr]
        have hvc : validCount (Op.create input now :: ops) = validCount ops + 1 := by
          simp [validCount, hv, Nat.add_comm]
        rw [hvc]
        constructor
        · rw [(ih m2).1, List.range'_succ, hid, hnext]
        · rw [(ih m2).2, hnext]
          omega
      · simp only [runOps, runOp, hr]
        have hvc : validCount (Op.create input now :: ops) = validCount ops := by
          simp [validCount, hv]
        rw [hvc]
        exact ih m
    | remove idv =>
      simp only [runOps, runOp, validCount]
      have hn := removeTask_nextId m idv
      constructor
      · rw [(ih (removeTask m idv).2).1, hn]
      · rw [(ih (removeTask m idv).2).2, hn]

/-- C3: for every sequence of successful `createTask` calls, possibly
interleaved with `removeTask` calls, the n-th created task has id n: starting
from a fresh manager the issued ids are exactly `1, 2, …, k`, they are
distinct, increase by one per successful creation, and ids of removed tasks
are never handed out again. -/
theorem createTask_id_allocation (ops : List Op) :
    (runOps Manager.init ops).2 = List.range' 1 (validCount ops) ∧
    ((runOps Manager.init ops).2).Nodup ∧
    (∀ n, n < validCount ops → ((runOps Manager.init ops).2)[n]? = some (1 + n)) := by
  have h : (runOps Manager.init ops).2 = List.range' 1 (validCount ops) :=
    (runOps_ids ops Manager.init).1
  refine ⟨h, ?_, ?_⟩
  · rw [h]
    exact List.nodup_range' _ _
  · intro n hn
    rw [h, List.getElem?_range' 1 1 hn, one_mul]

/-- Witness for C3: create, remove the created task, create again — the ids
are 1 then 2, and the removed id 1 is not reused. -/
theorem createTask_id_allocation_witness :
    (runOps Manager.init demoOps).2 = [1, 2] ∧ 1 < validCount demoOps ∧
    ((runOps Manager.init demoOps).2)[1]? = some (1 + 1) :=
  ⟨by decide, by decide, (createTask_id_allocation demoOps).2.2 1 (by decide)⟩

theorem cgNextCalls_codes {v : JsVal} {K : String} (h : validateProjectKey v = .ok K) :
    ∀ k g, (cgNextCalls g v k).1 =
      (List.range' (mapGet g K + 1) k).map (fun i => K ++ "-" ++ toString i) := by
  intro k
  induction k with
  | zero => intro g; rfl
  | succ k ih =>
    intro g
    simp only [cgNextCalls, cgNext_ok g h]
    rw [ih (mapSet g K (mapGet g K + 1)), mapGet_set_self, List.range'_succ]
    simp

theorem append_dash_inj {a : List Char} : ∀ {b u v : List Char},
    (∀ c ∈ a, c ≠ '-') → (∀ c ∈ b, c ≠ '-') →
    a ++ '-' :: u = b ++ '-' :: v → a = b ∧ u = v := by
  induction a with
  | nil =>
    intro b u v _ hb h
    cases b with
    | nil =>
      simp only [List.nil_append, List.cons.injEq] at h
      exact ⟨rfl, h.2⟩
    | cons y ys =>
      simp only [List.nil_append, List.cons_append, List.cons.injEq] at h
      exact absurd h.1.symm (hb y (List.mem_cons_self _ _))
  | cons x xs ih =>
    intro b u v ha hb h
    cases b with
    | nil =>
      simp only [List.cons_append, List.nil_append, List.cons.injEq] at h
      exact absurd h.1 (ha x (List.mem_cons_self _ _))
    | cons y ys =>
      simp only [List.cons_append, List.cons.injEq] at h
      obtain ⟨rfl, h2⟩ := h
      obtain ⟨h3, h4⟩ := ih (fun c hc => ha c (List.mem_cons_of_mem _ hc))
        (fun c hc => hb c (List.mem_cons_of_mem _ hc)) h2
      exact ⟨by rw [h3], h4⟩

theorem codes_no_collision {K1 K2 : String} {n1 n2 : Nat}
    (h1 : keyMatches K1 = true) (h2 : keyMatches K2 = true) (hne : K1 ≠ K2) :
    K1 ++ "-" ++ toString n1 ≠ K2 ++ "-" ++ toString n2 := by
  intro h
  apply hne
  have hd : K1.data ++ '-' :: (toString n1).data = K2.data ++ '-' :: (toString n2).data := by
    have := congrArg String.data h
    simpa [String.data_append] using this
  have ha : ∀ c ∈ K1.data, c ≠ '-' :=
    fun c hc => keyTailChar_ne_dash (keyMatches_chars h1 c hc)
  have hb : ∀ c ∈ K2.data, c ≠ '-' :=
    fun c hc => keyTailChar_ne_dash (keyMatches_chars h2 c hc)
  exact String.ext (append_dash_inj ha hb hd).1

/-- C4: `SequenceAllocator.next` on a valid key returns the normalized key
joined with the incremented counter and persists the new value, counters start
at 0 (the k-th call for a key from a fresh generator returns `<KEY>-<k>`),
counters of other normalized keys are untouched, and codes issued for
distinct normalized keys never collide. -/
theorem sequenceAllocator_next_spec :
    (∀ g key K, validateProjectKey key = .ok K →
      cgNext g key = .ok (K ++ "-" ++ toString (mapGet g K + 1), mapSet g K (mapGet g K + 1)) ∧
      mapGet (mapSet g K (mapGet g K + 1)) K = mapGet g K + 1 ∧
      (∀ K2, K2 ≠ K → mapGet (mapSet g K (mapGet g K + 1)) K2 = mapGet g K2)) ∧
    (∀ key K k, validateProjectKey key = .ok K →
      (cgNextCalls [] key k).1 = (List.range' 1 k).map (fun i => K ++ "-" ++ toString i)) ∧
    (∀ (K1 K2 : String) (n1 n2 : Nat), keyMatches K1 = true → keyMatches K2 = true → K1 ≠ K2 →
      K1 ++ "-" ++ toString n1 ≠ K2 ++ "-" ++ toString n2) := by
  refine ⟨?_, ?_, ?_⟩
  · intro g key K h
    exact ⟨cgNext_ok g h, mapGet_set_self g K _,
      fun K2 hne => mapGet_set_other g K K2 _ hne⟩
  · intro key K k h
    rw [cgNextCalls_codes h k []]
    rfl
  · intro K1 K2 n1 n2 h1 h2 hne
    exact codes_no_collision h1 h2 hne

/-- Witness for C4: the spec example — two `next("proj")` calls from a fresh
generator yield `PROJ-1` then `PROJ-2`, and `PROJ-…` codes never equal
`FEAT-…` codes. -/
theorem sequenceAllocator_next_spec_witness :
    validateProjectKey (.str "proj") = .ok "PROJ" ∧
    (cgNextCalls [] (.str "proj") 2).1 = ["PROJ-1", "PROJ-2"] ∧
    "PROJ" ++ "-" ++ toString 1 ≠ "FEAT" ++ "-" ++ toString 1 := by
  refine ⟨by decide, ?_, ?_⟩
  · rw [sequenceAllocator_next_spec.2.1 (.str "proj") "PROJ" 2 (by decide)]
    decide
  · exact sequenceAllocator_next_spec.2.2 "PROJ" "FEAT" 1 1 (by decide) (by decide)
      (by decide)

theorem getTask_notFound {m : Manager} {q : Rat}
    (h : ∀ t ∈ m.tasks, (t.id : Rat) ≠ q) :
    getTask m (.num q) = .error .notFound := by
  have hf : m.tasks.find? (taskIdMatches q) = none := by
    rw [List.find?_eq_none]
    intro t ht
    simp [taskIdMatches, h t ht]
  unfold getTask
  simp only [hf]

/-- C10: `updateTask` resolves the id before inspecting `changes`: when no
stored task has the requested numeric id, the call fails with `NotFound` and
leaves the store unchanged for every `changes` value, including `null` and
other non-objects — `NotFound` takes precedence over `InvalidInput` for the
`changes` argument. -/
theorem updateTask_notFound_precedence (m : Manager) (q : Rat)
    (changes : ChangesArg) (now : Nat) (h : ∀ t ∈ m.tasks, (t.id : Rat) ≠ q) :
    updateTask m (.num q) changes now = (.error .notFound, m) := by
  unfold updateTask
  simp only [getTask_notFound h]

/-- Witness for C10: `updateTask(999, null)` on the empty store is `NotFound`,
not `InvalidInput`. -/
theorem updateTask_notFound_precedence_witness :
    updateTask Manager.init (.num (Rat.mk' 999 1)) (.nonObj .null) 0 =
      (.error .notFound, Manager.init) :=
  updateTask_notFound_precedence Manager.init (Rat.mk' 999 1) (.nonObj .null) 0
    (by decide)

/-- C6 counterexample: the id check is `typeof id !== 'number'`, so the
non-integer number `1.5` passes validation; on the store holding the single
task with id 1, `getTask(1.5)` and `removeTask(1.5)` fail with `NotFound`,
not `InvalidInput` as the claim states. -/
theorem getTask_fractional_id_notFound :
    getTask demoM (.num (Rat.mk' 3 2)) = .error .notFound ∧
    getTask demoM (.num (Rat.mk' 3 2)) ≠ .error .invalidInput ∧
    (removeTask demoM (.num (Rat.mk' 3 2))).1 = .error .notFound := by
  decide

/-- C6 amended: an id argument that is not a JS number fails with
`InvalidInput` in `getTask` and in `removeTask` (which also leaves the store
unchanged); a numeric but non-integer id passes the `typeof` check and fails
with `NotFound`, because every stored id is an integer. -/
theorem id_validation_behavior :
    (∀ m (v : JsVal), v.isNum = false →
      getTask m v = .error .invalidInput ∧ removeTask m v = (.error .invalidInput, m)) ∧
    (∀ (m : Manager) (q : Rat), q.den ≠ 1 →
      getTask m (.num q) = .error .notFound ∧
      removeTask m (.num q) = (.error .notFound, m)) := by
  constructor
  · intro m v hv
    match v with
    | .num _ => simp [JsVal.isNum] at hv
    | .undefined | .null | .bool _ | .str _ => exact ⟨rfl, rfl⟩
  · intro m q hq
    have h : ∀ t ∈ m.tasks, (t.id : Rat) ≠ q := by
      intro t ht heq
      exact hq (by rw [← heq, Rat.den_natCast])
    have hf : m.tasks.find? (taskIdMatches q) = none := by
      rw [List.find?_eq_none]
      intro t ht
      simp [taskIdMatches, h t ht]
    refine ⟨getTask_notFound h, ?_⟩
    unfold removeTask
    simp [hf]

/-- Witness for C6's amended statement: a string id is `InvalidInput`, the
fractional id `3/2` is `NotFound`. -/
theorem id_validation_behavior_witness :
    getTask demoM (.str "1") = .error .invalidInput ∧
    (Rat.mk' 3 2).den ≠ 1 ∧
    removeTask demoM (.num (Rat.mk' 3 2)) = (.error .notFound, demoM) :=
  ⟨(id_validation_behavior.1 demoM (.str "1") (by decide)).1,
   by decide,
   (id_validation_behavior.2 demoM (Rat.mk' 3 2) (by decide)).2⟩

/-- C7: `listTasks` is a pure read returning the current snapshot: the call
leaves the store unchanged, two consecutive calls with no intervening
mutation return equal sequences, the snapshot is the task list in insertion
order, and a snapshot taken earlier is not changed in length or membership by
a later `createTask` or `removeTask` — the later state appends to or shrinks
the store relative to the unchanged earlier snapshot. -/
theorem listTasks_snapshot (m : Manager) :
    (listTasks m).2 = m ∧
    (listTasks ((listTasks m).2)).1 = (listTasks m).1 ∧
    (listTasks m).1 = m.tasks ∧
    (∀ input now t m2, createTask m input now = (.ok t, m2) →
      m2.tasks = (listTasks m).1 ++ [t] ∧ (listTasks m).1.length + 1 = m2.tasks.length) ∧
    (∀ q m2, removeTask m (.num q) = (.ok (), m2) →
      m2.tasks.length + 1 = (listTasks m).1.length) := by
  refine ⟨rfl, rfl, rfl, ?_, ?_⟩
  · intro input now t m2 h
    have ht := (createTask_ok_shape h).2.2.2.2.2.2.2.2.2.1
    refine ⟨ht, ?_⟩
    rw [show (listTasks m).1 = m.tasks from rfl, ht]
    simp
  · intro q m2 h
    simp only [removeTask] at h
    by_cases hs : (m.tasks.find? (taskIdMatches q)).isSome = true
    · rw [if_pos hs] at h
      obtain ⟨t, hf⟩ := Option.isSome_iff_exists.mp hs
      have hmem := List.mem_of_find?_eq_some hf
      have hpt : taskIdMatches q t = true := List.find?_some hf
      have hlen : 0 < m.tasks.length := List.length_pos_of_mem hmem
      cases h
      show (m.tasks.eraseP (taskIdMatches q)).length + 1 = m.tasks.length
      rw [List.length_eraseP_of_mem hmem hpt]
      omega
    · rw [if_neg hs] at h
      cases h

/-- Witness for C7: the snapshot facts instantiated on the empty store and the
concrete creation of `demoTask`. -/
theorem listTasks_snapshot_witness :
    (listTasks Manager.init).2 = Manager.init ∧
    demoM.tasks = (listTasks Manager.init).1 ++ [demoTask] :=
  ⟨(listTasks_snapshot Manager.init).1,
   ((listTasks_snapshot Manager.init).2.2.2.1 demoInput 0 demoTask demoM (by decide)).1⟩

theorem strIncludes_iff (n : List Char) : ∀ h : List Char,
    strIncludes n h = true ↔ n <:+: h := by
  intro h
  induction h with
  | nil =>
    simp only [strIncludes, List.isEmpty_iff, List.infix_nil]
  | cons c t ih =>
    simp only [strIncludes, Bool.or_eq_true, List.isPrefixOf_iff_prefix, ih]
    exact (List.infix_cons_iff).symm

/-- C8 counterexample: `searchByTitle` filters on the trimmed query, so on the
store whose single task is titled `"xax"` the query `" a "` (a string,
non-empty after trimming) returns that task even though `"xax"` does not
contain `" a "` as a case-insensitive substring — the claim describes the
returned set incorrectly for queries with surrounding whitespace. -/
theorem searchByTitle_untrimmed_query_mismatch :
    searchByTitle storeXax (.str " a ") = .ok storeXax.tasks ∧
    storeXax.tasks.map (fun t => t.title) = ["xax"] ∧
    ¬ ((jsToLower " a ").data <:+: (jsToLower "xax").data) := by
  refine ⟨by decide, by decide, by decide⟩

/-- C8 amended: `searchByTitle` fails with `InvalidInput` on every query that
is not a string or is empty after trimming; otherwise it returns, in
insertion order, exactly the tasks whose title contains the **trimmed** query
as a case-insensitive substring. -/
theorem searchByTitle_spec :
    (∀ m (v : JsVal), v.isStr = false → searchByTitle m v = .error .invalidInput) ∧
    (∀ m s, jsTrim s = "" → searchByTitle m (.str s) = .error .invalidInput) ∧
    (∀ m s, jsTrim s ≠ "" →
      searchByTitle m (.str s) =
        .ok (m.tasks.filter (fun t =>
          decide ((jsToLower (jsTrim s)).data <:+: (jsToLower t.title).data)))) := by
  refine ⟨?_, ?_, ?_⟩
  · intro m v hv
    match v with
    | .str _ => simp [JsVal.isStr] at hv
    | .undefined | .null | .bool _ | .num _ => rfl
  · intro m s hs
    simp only [searchByTitle]
    rw [if_pos hs]
  · intro m s hs
    simp only [searchByTitle]
    rw [if_neg hs]
    congr 1
    apply List.filter_congr
    intro t ht
    unfold includesCI
    cases hb : strIncludes (jsToLower (jsTrim s)).data (jsToLower t.title).data
    · symm
      rw [decide_eq_false_iff_not]
      intro hi
      rw [← strIncludes_iff] at hi
      rw [hb] at hi
      cases hi
    · symm
      rw [decide_eq_true_eq]
      exact (strIncludes_iff _ _).mp hb

/-- Witness for C8's amended statement: the spec example — the query `"login"`
matches the task titled `"Implementar LOGIN"`. -/
theorem searchByTitle_spec_witness :
    jsTrim "login" ≠ "" ∧
    searchByTitle storeLogin (.str "login") =
      .ok (storeLogin.tasks.filter (fun t =>
        decide ((jsToLower (jsTrim "login")).data <:+: (jsToLower t.title).data))) ∧
    searchByTitle storeLogin (.str "login") = .ok storeLogin.tasks ∧
    storeLogin.tasks.map (fun t => t.title) = ["Implementar LOGIN"] :=
  ⟨by decide, searchByTitle_spec.2.2 storeLogin "login" (by decide), by decide, by decide⟩

theorem dropWhile_eq_cons_head {α : Type} {p : α → Bool} {l t : List α} {a : α}
    (h : l.dropWhile p = a :: t) : p a = false := by
  induction l with
  | nil => cases h
  | cons b bs ih =>
    rw [List.dropWhile_cons] at h
    by_cases hb : p b = true
    · rw [if_pos hb] at h
      exact ih h
    · rw [if_neg hb] at h
      cases h
      exact Bool.eq_false_iff.mpr hb

theorem jsTrimList_idem (l : List Char) : jsTrimList (jsTrimList l) = jsTrimList l := by
  cases hc : jsTrimList l with
  | nil => rfl
  | cons a t =>
    have hpre : jsTrimList l <+: l.dropWhile jsWhitespace := List.rdropWhile_prefix _ _
    rw [hc] at hpre
    obtain ⟨u, hu⟩ := hpre
    have hdl : l.dropWhile jsWhitespace = a :: (t ++ u) := by rw [← hu]; simp
    have hpa : jsWhitespace a = false := dropWhile_eq_cons_head hdl
    show ((a :: t).dropWhile jsWhitespace).rdropWhile jsWhitespace = a :: t
    rw [List.dropWhile_cons, if_neg (by simp [hpa])]
    conv_lhs => rw [← hc]
    show ((l.dropWhile jsWhitespace).rdropWhile jsWhitespace).rdropWhile jsWhitespace = a :: t
    rw [List.rdropWhile_idempotent]
    exact hc

theorem jsTrim_idem (s : String) : jsTrim (jsTrim s) = jsTrim s := by
  apply String.ext
  exact jsTrimList_idem s.data

theorem taskWF_updatedAt {t : Task} (hw : TaskWF t) (now : Nat) :
    TaskWF { t with updatedAt := now } :=
  ⟨hw.1, hw.2.1, hw.2.2.1, hw.2.2.2.1, hw.2.2.2.2⟩

theorem applyTitle_wf {t t2 : Task} {v : JsVal} (h : applyTitle t v = .ok t2)
    (hw : TaskWF t) : TaskWF t2 := by
  unfold applyTitle at h
  by_cases hn : v.notNullish = true
  · rw [if_pos hn] at h
    match v with
    | .str s =>
      simp only at h
      by_cases he : jsTrim s = ""
      · rw [if_pos he] at h; cases h
      · rw [if_neg he] at h
        cases h
        exact ⟨he, jsTrim_idem s, hw.2.2.1, hw.2.2.2.1, hw.2.2.2.2⟩
    | .undefined => simp [JsVal.notNullish] at hn
    | .null => simp [JsVal.notNullish] at hn
    | .bool _ => simp only at h; cases h
    | .num _ => simp only at h; cases h
  · rw [if_neg hn] at h
    cases h
    exact hw

theorem applyDescription_wf {t t2 : Task} {v : JsVal}
    (h : applyDescription t v = .ok t2) (hw : TaskWF t) : TaskWF t2 := by
  unfold applyDescription at h
  by_cases hn : v.notNullish = true
  · rw [if_pos hn] at h
    match v with
    | .str s =>
      simp only at h
      cases h
      exact ⟨hw.1, hw.2.1, hw.2.2.1, hw.2.2.2.1, hw.2.2.2.2⟩
    | .undefined => simp [JsVal.notNullish] at hn
    | .null => simp [JsVal.notNullish] at hn
    | .bool _ => simp only at h; cases h
    | .num _ => simp only at h; cases h
  · rw [if_neg hn] at h
    cases h
    exact hw

theorem applyPriority_wf {t t2 : Task} {v : JsVal}
    (h : applyPriority t v = .ok t2) (hw : TaskWF t) : TaskWF t2 := by
  unfold applyPriority at h
  by_cases hn : v.notNullish = true
  · rw [if_pos hn] at h
    match v with
    | .str s =>
      simp only at h
      by_cases hs : VALID_PRIORITY.contains s = true
      · rw [if_pos hs] at h
        cases h
        exact ⟨hw.1, hw.2.1, hw.2.2.1, List.mem_of_elem_eq_true hs, hw.2.2.2.2⟩
      · rw [if_neg hs] at h; cases h
    | .undefined => simp [JsVal.notNullish] at hn
    | .null => simp [JsVal.notNullish] at hn
    | .bool _ => simp only at h; cases h
    | .num _ => simp only at h; cases h
  · rw [if_neg hn] at h
    cases h
    exact hw

theorem applyStatus_wf {t t2 : Task} {v : JsVal} {now : Nat}
    (h : applyStatus t v now = .ok t2) (hw : TaskWF t) : TaskWF t2 := by
  unfold applyStatus at h
  by_cases hn : v.notNullish = true
  · rw [if_pos hn] at h
    match v with
    | .str s =>
      simp only at h
      by_cases hs : VALID_STATUS.contains s = true
      · rw [if_pos hs] at h
        cases h
        exact ⟨hw.1, hw.2.1, List.mem_of_elem_eq_true hs, hw.2.2.2.1, hw.2.2.2.2⟩
      · rw [if_neg hs] at h; cases h
    | .undefined => simp [JsVal.notNullish] at hn
    | .null => simp [JsVal.notNullish] at hn
    | .bool _ => simp only at h; cases h
    | .num _ => simp only at h; cases h
  · rw [if_neg hn] at h
    cases h
    exact hw

theorem applyChanges_wf {t : Task} {c : Changes} {now : Nat} (hw : TaskWF t) :
    TaskWF (applyChanges t c now).1 := by
  unfold applyChanges
  cases h1 : applyTitle t c.title with
  | error e => exact hw
  | ok t1 =>
    dsimp only
    have hw1 := applyTitle_wf h1 hw
    cases h2 : applyDescription t1 c.description with
    | error e => exact hw1
    | ok t2 =>
      dsimp only
      have hw2 := applyDescription_wf h2 hw1
      cases h3 : applyPriority t2 c.priority with
      | error e => exact hw2
      | ok t3 =>
        dsimp only
        have hw3 := applyPriority_wf h3 hw2
        cases h4 : applyStatus t3 c.status now with
        | error e => exact hw3
        | ok t4 => exact taskWF_updatedAt (applyStatus_wf h4 hw3) now

theorem createTitle_trimmed (input : CreateInput) (h : createTitle input ≠ "") :
    jsTrim (createTitle input) = createTitle input := by
  unfold createTitle at h ⊢
  cases hti : input.title with
  | str s => simp only [hti]; exact jsTrim_idem s
  | undefined => simp [hti] at h
  | null => simp [hti] at h
  | bool b => simp [hti] at h
  | num q => simp [hti] at h

theorem createTask_wf {m : Manager} {input : CreateInput} {now : Nat} {t : Task}
    {m2 : Manager} (h : createTask m input now = (.ok t, m2)) (hw : WF m) :
    WF m2 := by
  obtain ⟨hv, -, hst, -, htitle, -, -, hpr, -, htasks, K, hK, hcode, -⟩ :=
    createTask_ok_shape h
  intro u hu
  rw [htasks] at hu
  rcases List.mem_append.mp hu with h1 | h2
  · exact hw u h1
  · rw [List.mem_singleton.mp h2]
    have hnz : createTitle input ≠ "" := by
      simp only [validCreate, Bool.and_eq_true, decide_eq_true_eq] at hv
      exact hv.1.1
    refine ⟨?_, ?_, ?_, hpr, ⟨K, mapGet m.codes K + 1, hK, hcode⟩⟩
    · rw [htitle]; exact hnz
    · rw [htitle]; exact createTitle_trimmed input hnz
    · rw [hst]; decide

theorem updateTask_wf (m : Manager) (idv : JsVal) (changes : ChangesArg)
    (now : Nat) (hw : WF m) : WF (updateTask m idv changes now).2 := by
  unfold updateTask
  cases hg : getTask m idv with
  | error e => exact hw
  | ok task =>
    dsimp only
    cases changes with
    | nonObj v => exact hw
    | obj ti de pr =>
      dsimp only
      have hwt := @applyChanges_wf task ⟨ti, de, pr, .undefined⟩ now
        (hw task (getTask_ok_mem hg))
      cases hr2 : (applyChanges task ⟨ti, de, pr, .undefined⟩ now).2
      all_goals
        intro u hu
        rcases mem_replaceFirst hu with h1 | rfl
        · exact hw u h1
        · exact hwt

theorem changeStatus_wf (m : Manager) (idv ns : JsVal) (now : Nat)
    (hw : WF m) : WF (changeStatus m idv ns now).2 := by
  rw [changeStatus_eq]
  cases hg : getTask m idv with
  | error e => exact hw
  | ok task =>
    dsimp only
    have htask := hw task (getTask_ok_mem hg)
    cases ha : applyStatus task ns now with
    | error e =>
      intro u hu
      rcases mem_replaceFirst hu with h1 | rfl
      · exact hw u h1
      · exact htask
    | ok t4 =>
      intro u hu
      rcases mem_replaceFirst hu with h1 | rfl
      · exact hw u h1
      · exact taskWF_updatedAt (applyStatus_wf ha htask) now

theorem removeTask_wf (m : Manager) (idv : JsVal) (hw : WF m) :
    WF (removeTask m idv).2 := by
  unfold removeTask
  match idv with
  | .num q =>
    dsimp only
    by_cases hs : (m.tasks.find? (taskIdMatches q)).isSome = true
    · rw [if_pos hs]
      intro u hu
      exact hw u (List.mem_of_mem_eraseP hu)
    · rw [if_neg hs]
      exact hw
  | .undefined | .null | .bool _ | .str _ => exact hw

theorem step_wf {a b : Manager} (hstep : Step a b) (hw : WF a) : WF b := by
  cases hstep with
  | create input now =>
    rcases hr : createTask a input now with ⟨r, m2⟩
    cases r with
    | ok t => exact createTask_wf hr hw
    | error e =>
      obtain ⟨rfl, -⟩ := createTask_err_state hr
      exact hw
  | update idv changes now => exact updateTask_wf a idv changes now hw
  | status idv ns now => exact changeStatus_wf a idv ns now hw
  | remove idv => exact removeTask_wf a idv hw

/-- C9: well-formedness is preserved by every operation — at every reachable
state of a `TodoManager`, every stored task has a non-empty trimmed title, a
status in `{todo, in_progress, done}`, a priority in `{low, medium, high}`,
and a code of shape `<KEY>-<N>` for a valid normalized project key. -/
theorem reachable_wellFormed (m : Manager) (h : Reachable m) : WF m := by
  induction h with
  | refl => intro t ht; cases ht
  | tail hs hstep ih => exact step_wf hstep ih

/-- Witness for C9: the store reached by one `createTask` call is reachable
and well-formed. -/
theorem reachable_wellFormed_witness : WF demoM :=
  reachable_wellFormed demoM
    (Relation.ReflTransGen.single (Step.create Manager.init demoInput 0))

/-- C2 (code violation): `updateTask` validates and applies field by field, so
a valid `title` together with an invalid `priority` throws `InvalidInput`
after the title has already been written.  On the store holding the task
titled `"Old"`, `updateTask(1, {title: "New", priority: "urgent"})` fails and
yet leaves the stored title `"New"` (with `updatedAt` unrefreshed at 0) — the
task is not in its pre-call state, refuting atomicity. -/
theorem updateTask_partial_write :
    demoM.tasks.map (fun t => t.title) = ["Old"] ∧
    (updateTask demoM (.num (Rat.mk' 1 1))
        (.obj (.str "New") .undefined (.str "urgent")) 5).1 = .error .invalidInput ∧
    (updateTask demoM (.num (Rat.mk' 1 1))
        (.obj (.str "New") .undefined (.str "urgent")) 5).2.tasks.map
      (fun t => (t.title, t.updatedAt)) = [("New", 0)] :=
  ⟨by decide, by decide, by decide⟩

/-- C5 (code violation): `createTask` copies `input.description ?? ''` into
the task without the `typeof` string check that the spec (and `applyChanges`)
require, so `createTask({title: "x", description: 42})` succeeds and stores
the number 42 instead of failing with `InvalidInput`.  An absent description
does default to the empty string. -/
theorem createTask_accepts_nonstring_description :
    (createTask Manager.init descInput 0).1 =
      .ok { id := 1, code := "TASK-1", title := "x",
            description := .num (Rat.mk' 42 1), status := "todo",
            priority := "medium", createdAt := 0, updatedAt := 0,
            completedAt := none } ∧
    (createTask Manager.init demoInput 0).1 = .ok demoTask ∧
    demoTask.description = .str "" :=
  ⟨by decide, by decide, by decide⟩

end TodoMgr
